import Mathlib

/-!
Shallow embedding of the PKCS#8 elliptic-curve key codec from
`icao/pkcs8.js` (the `PKCS8` helper object of the OpenSCDP scripts).

Byte sequences (`ByteString`) are modelled as `List Nat`, one element per
byte.  The external scripting-host primitives consumed by the codec are
modelled as follows:

* `ASN1` trees are the inductive `ASN1` below; the host's canonical DER
  `getBytes` is `serialize`, and the host's byte parser `new ASN1(bytes)`
  is `parse` (a fuel-indexed TLV parser; the fuel `length + 1` always
  suffices for inputs the parser accepts).
* `Key` objects are records with a type and the eight ECC components the
  codec touches.  `getComponent`/`setComponent` become field access.
* `assert` and the host's faults on out-of-range byte access become the
  `Except EncError` error channel of the encoder, and `Option` failure in
  the decoder (the host throws on `get` of a missing child).
-/

namespace PKCS8Spec

/-- Key.PRIVATE / Key.PUBLIC of the host `Key` object. -/
inductive KeyType where
  | PRIVATE
  | PUBLIC
deriving DecidableEq

/-- The in-memory key record: the type tag and the ECC components read or
written by the codec (`Key.ECC_D`, `Key.ECC_GX`, ..., `Key.ECC_H`), each a
big-endian byte sequence. -/
structure Key where
  type : KeyType
  ecc_D : List Nat
  ecc_GX : List Nat
  ecc_GY : List Nat
  ecc_A : List Nat
  ecc_B : List Nat
  ecc_P : List Nat
  ecc_N : List Nat
  ecc_H : List Nat
deriving DecidableEq

/-- A tag-length-value tree node: `prim` holds raw value bytes, `cons`
holds an ordered child list (the host `ASN1` object). -/
inductive ASN1 where
  | prim (tag : Nat) (value : List Nat)
  | cons (tag : Nat) (children : List ASN1)

/-- Child access, `asn1.get(i)`; the host throws when the index is out of
range or the node has no children, modelled as `none`. -/
def ASN1.get (t : ASN1) (i : Nat) : Option ASN1 :=
  match t with
  | .prim _ _ => none
  | .cons _ cs => cs.get? i

/-- The tag of a node, `asn1.tag`. -/
def ASN1.tag (t : ASN1) : Nat :=
  match t with
  | .prim tg _ => tg
  | .cons tg _ => tg

/-- Big-endian minimal byte representation of a natural number (used for
DER long-form lengths). -/
def natBE (n : Nat) : List Nat :=
  if h : n = 0 then [] else natBE (n / 256) ++ [n % 256]
termination_by n
decreasing_by exact Nat.div_lt_self (Nat.pos_of_ne_zero h) (by omega)

/-- Big-endian byte sequence back to a natural number. -/
def bytesToNat (bs : List Nat) : Nat :=
  bs.foldl (fun acc b => acc * 256 + b) 0

/-- DER definite length octets: short form below 128, long form above. -/
def derLen (n : Nat) : List Nat :=
  if n < 128 then [n] else (128 + (natBE n).length) :: natBE n

mutual

/-- Canonical DER encoding of a node (the host's `getBytes`):
tag octet, length octets, then the value or the concatenated children. -/
def serialize : ASN1 → List Nat
  | .prim tg v => tg :: (derLen v.length ++ v)
  | .cons tg cs => tg :: (derLen (serializeList cs).length ++ serializeList cs)

/-- Concatenated DER encodings of a child list. -/
def serializeList : List ASN1 → List Nat
  | [] => []
  | c :: cs => serialize c ++ serializeList cs

end

/-- The value bytes of a node, `asn1.value`: the raw bytes of a leaf, or
the concatenated encoded children of a constructed node. -/
def ASN1.value (t : ASN1) : List Nat :=
  match t with
  | .prim _ v => v
  | .cons _ cs => serializeList cs

mutual

/-- Node count of a tree (proof measure only). -/
def asize : ASN1 → Nat
  | .prim _ _ => 1
  | .cons _ cs => 1 + asizeL cs

/-- Node count of a child list (proof measure only). -/
def asizeL : List ASN1 → Nat
  | [] => 0
  | c :: cs => asize c + asizeL cs

end

mutual

/-- A tree whose leaf tags carry a clear constructed bit and whose inner
tags carry a set constructed bit, so the byte parser reads it back with
the same constructors.  All trees the codec builds satisfy this. -/
def wfb : ASN1 → Bool
  | .prim tg _ => tg / 32 % 2 == 0
  | .cons tg cs => (tg / 32 % 2 == 1) && wfbL cs

/-- `wfb` on every node of a list. -/
def wfbL : List ASN1 → Bool
  | [] => true
  | c :: cs => wfb c && wfbL cs

end

/-- Read DER length octets, returning the length and the remaining input. -/
def parseLen : List Nat → Option (Nat × List Nat)
  | [] => none
  | b :: rest =>
    if b < 128 then some (b, rest)
    else if b = 128 then none
    else
      let k := b - 128
      if rest.length < k then none
      else some (bytesToNat (rest.take k), rest.drop k)

/-- Parse a run of TLV nodes until the input is exhausted.  A node with
the constructed bit set has its content parsed recursively into children;
the fuel bounds the recursion depth (input length plus one always
suffices). -/
def parseManyFuel : Nat → List Nat → Option (List ASN1)
  | _, [] => some []
  | 0, _ :: _ => none
  | f + 1, tg :: bs =>
    match parseLen bs with
    | none => none
    | some (len, rest) =>
      if len ≤ rest.length then
        match (if tg / 32 % 2 = 1
               then (parseManyFuel f (rest.take len)).map (ASN1.cons tg)
               else some (ASN1.prim tg (rest.take len))) with
        | none => none
        | some node =>
          match parseManyFuel f (rest.drop len) with
          | none => none
          | some nodes => some (node :: nodes)
      else none

/-- The host's byte parser `new ASN1(bytes)`: the input must be exactly
one complete TLV encoding. -/
def parse (bs : List Nat) : Option ASN1 :=
  match parseManyFuel (bs.length + 1) bs with
  | some [t] => some t
  | _ => none

/-- Walk a tree along a list of child indices. -/
def navigate (t : ASN1) : List Nat → Option ASN1
  | [] => some t
  | i :: is =>
    match t.get i with
    | none => none
    | some c => navigate c is

/-- Parse a byte sequence and walk to the node at a child-index path. -/
def nodeAt (bs : List Nat) (path : List Nat) : Option ASN1 :=
  match parse bs with
  | none => none
  | some t => navigate t path

/-- The value bytes of the node at a child-index path. -/
def nodeValueAt (bs : List Nat) (path : List Nat) : Option (List Nat) :=
  (nodeAt bs path).map ASN1.value

/-- The tag of the node at a child-index path. -/
def nodeTagAt (bs : List Nat) (path : List Nat) : Option Nat :=
  (nodeAt bs path).map ASN1.tag

/-- `PKCS8.encodeUncompressedECPoint(x, y)`: marker byte `04` followed by
the raw bytes of both coordinates. -/
def encodeUncompressedECPoint (x y : List Nat) : List Nat :=
  [0x04] ++ x ++ y

/-- `PKCS8.decodeUncompressedECPoint(uncompressedPoint)`: drop the marker
byte, halve the residual length, and slice the two coordinates.  An empty
input or an odd residual length leaves the source's coordinate slicing
undefined (fractional sizes are passed to `bytes`); both are modelled as
failure. -/
def decodeUncompressedECPoint (uncompressedPoint : List Nat) :
    Option (List Nat × List Nat) :=
  if uncompressedPoint.length = 0 then none
  else
    let length := uncompressedPoint.length - 1
    if length % 2 = 0 then
      let sizeOfCoordinate := length / 2
      some ((uncompressedPoint.drop 1).take sizeOfCoordinate,
            (uncompressedPoint.drop (1 + sizeOfCoordinate)).take sizeOfCoordinate)
    else none

/-- `PKCS8.stripLeadingZeros(value)`: drop the leading run of zero bytes. -/
def stripLeadingZeros : List Nat → List Nat
  | [] => []
  | b :: rest => if b = 0 then stripLeadingZeros rest else b :: rest

/-- The sign normalisation of lines 130-135 and 157-162 of the source: a
leading `00` is prepended exactly when the first byte's high bit is set
(`byteAt(0) >= 0x80`).  Only reached on nonempty input; the `[]` arm marks
the host fault on `byteAt(0)` of an empty sequence, handled separately by
the encoder. -/
def signPad (v : List Nat) : List Nat :=
  match v with
  | [] => []
  | b :: _ => if 128 ≤ b then 0 :: v else v

/-- Content bytes of OBJECT IDENTIFIER `1.2.840.10045.2.1` (id-ecPublicKey). -/
def oid_ecPublicKey : List Nat := [0x2A, 0x86, 0x48, 0xCE, 0x3D, 0x02, 0x01]

/-- Content bytes of OBJECT IDENTIFIER `1.2.840.10045.1.1` (prime-field). -/
def oid_primeField : List Nat := [0x2A, 0x86, 0x48, 0xCE, 0x3D, 0x01, 0x01]

/-- The inner `ECPrivateKey` SEQUENCE built at lines 173-175: version `01`
and the raw private scalar `D` as an OCTET STRING. -/
def ecPrivateKeyTree (k : Key) : ASN1 :=
  ASN1.cons 0x30 [ASN1.prim 0x02 [0x01], ASN1.prim 0x04 k.ecc_D]

/-- The `PrivateKeyInfo` tree assembled by `encodeKeyUsingPKCS8Format`
(lines 112-179).  The host encodes a primitive-tagged node that was given
a child (`encodedPrivateKey.add(key)`, lines 170-177) by using the child's
encoding as its value, so that node appears here directly as an
OCTET STRING leaf holding `serialize (ecPrivateKeyTree k)`. -/
def privateKeyInfoTree (k : Key) : ASN1 :=
  ASN1.cons 0x30 [
    ASN1.prim 0x02 [0x00],
    ASN1.cons 0x30 [
      ASN1.prim 0x06 oid_ecPublicKey,
      ASN1.cons 0x30 [
        ASN1.prim 0x02 (stripLeadingZeros k.ecc_H),
        ASN1.cons 0x30 [
          ASN1.prim 0x06 oid_primeField,
          ASN1.prim 0x02 (signPad k.ecc_P)],
        ASN1.cons 0x30 [
          ASN1.prim 0x04 k.ecc_A,
          ASN1.prim 0x04 k.ecc_B],
        ASN1.prim 0x04 (encodeUncompressedECPoint k.ecc_GX k.ecc_GY),
        ASN1.prim 0x02 (signPad k.ecc_N)]],
    ASN1.prim 0x04 (serialize (ecPrivateKeyTree k))]

/-- The two failure channels of the encoder: the `assert` on the key type
(line 110), and the host fault on `byteAt(0)` of an empty component
(lines 131, 158). -/
inductive EncError where
  | precondition
  | byteAccess
deriving DecidableEq

/-- `PKCS8.encodeKeyUsingPKCS8Format(privateKey)` (lines 108-182):
assert the key is PRIVATE, build the `PrivateKeyInfo` tree and return its
DER bytes.  Reading `byteAt(0)` of an empty `P` or `N` faults in the
host, modelled as the `byteAccess` error. -/
def encodeKeyUsingPKCS8Format (k : Key) : Except EncError (List Nat) :=
  if k.type = KeyType.PRIVATE then
    match k.ecc_P, k.ecc_N with
    | [], _ => .error .byteAccess
    | _ :: _, [] => .error .byteAccess
    | _ :: _, _ :: _ => .ok (serialize (privateKeyInfoTree k))
  else .error .precondition

/-- `PKCS8.decodeKeyFromPKCS8Format(encodedKey)` (lines 195-236): parse
the bytes and read the components at fixed child positions.  Every host
fault on the way (unparseable bytes, missing child, undefined point
slicing) is `none`. -/
def decodeKeyFromPKCS8Format (encodedKey : List Nat) : Option Key :=
  match parse encodedKey with
  | none => none
  | some p8 =>
  match p8.get 2 with
  | none => none
  | some privKeyBlock =>
  match parse privKeyBlock.value with
  | none => none
  | some innerKey =>
  match innerKey.get 1 with
  | none => none
  | some dNode =>
  match p8.get 1 with
  | none => none
  | some alg =>
  match alg.get 1 with
  | none => none
  | some domainParameter =>
  match domainParameter.get 0 with
  | none => none
  | some cofactor =>
  match domainParameter.get 1 with
  | none => none
  | some fieldSeq =>
  match fieldSeq.get 1 with
  | none => none
  | some orderNode =>
  match domainParameter.get 2 with
  | none => none
  | some coeffSeq =>
  match coeffSeq.get 0 with
  | none => none
  | some aNode =>
  match coeffSeq.get 1 with
  | none => none
  | some bNode =>
  match domainParameter.get 3 with
  | none => none
  | some generatorPoint =>
  match decodeUncompressedECPoint generatorPoint.value with
  | none => none
  | some coords =>
  match domainParameter.get 4 with
  | none => none
  | some groupOrder =>
  some { type := KeyType.PRIVATE, ecc_D := dNode.value, ecc_H := cofactor.value,
         ecc_P := orderNode.value, ecc_A := aNode.value, ecc_B := bNode.value,
         ecc_GX := coords.1, ecc_GY := coords.2, ecc_N := groupOrder.value }

/-- decode composed after encode. -/
def decodeOfEncode (k : Key) : Option Key :=
  (encodeKeyUsingPKCS8Format k).toOption.bind decodeKeyFromPKCS8Format

/-- encode composed after decode composed after encode. -/
def reencodeOfDecode (k : Key) : Option (List Nat) :=
  (decodeOfEncode k).bind fun kd => (encodeKeyUsingPKCS8Format kd).toOption

/-- Success of every fixed-position navigation step of the decoder: the
bytes parse, the children the decoder indexes exist, the inner private-key
block parses, and the base point splits into coordinates.  No tag is ever
inspected. -/
def decodeShapeOK (bs : List Nat) : Bool :=
  match parse bs with
  | none => false
  | some p8 =>
    match p8.get 2 with
    | none => false
    | some privKeyBlock =>
      match parse privKeyBlock.value with
      | none => false
      | some innerKey =>
        (innerKey.get 1).isSome &&
        (match p8.get 1 with
         | none => false
         | some alg =>
           match alg.get 1 with
           | none => false
           | some dp =>
             (dp.get 0).isSome &&
             (match dp.get 1 with
              | none => false
              | some fieldSeq => (fieldSeq.get 1).isSome) &&
             (match dp.get 2 with
              | none => false
              | some coeffSeq => (coeffSeq.get 0).isSome && (coeffSeq.get 1).isSome) &&
             (match dp.get 3 with
              | none => false
              | some g => (decodeUncompressedECPoint g.value).isSome) &&
             (dp.get 4).isSome)

/-- A concrete PRIVATE key whose `P` has the high bit of its first byte
set, the sign-relevant case of the codec. -/
def c1key : Key :=
  { type := KeyType.PRIVATE, ecc_D := [1], ecc_GX := [2], ecc_GY := [3],
    ecc_A := [4], ecc_B := [5], ecc_P := [0xFF, 0x01], ecc_N := [1], ecc_H := [1] }

/-- A concrete PRIVATE key with a leading zero on `H` and high-bit-free
`P` and `N`. -/
def c1wkey : Key :=
  { type := KeyType.PRIVATE, ecc_D := [9], ecc_GX := [2], ecc_GY := [3],
    ecc_A := [4], ecc_B := [5], ecc_P := [0x12], ecc_N := [0x34], ecc_H := [0, 1] }

/-- A concrete PRIVATE key exercising both sign-padding branches. -/
def c2wkey : Key :=
  { type := KeyType.PRIVATE, ecc_D := [7, 8], ecc_GX := [2, 1], ecc_GY := [3, 1],
    ecc_A := [4], ecc_B := [5], ecc_P := [0x80], ecc_N := [0x7F], ecc_H := [1] }

/-- The spec's concrete sign-padding scenario: `P` raw bytes `FF 01`. -/
def c3wkey : Key :=
  { type := KeyType.PRIVATE, ecc_D := [1], ecc_GX := [2], ecc_GY := [3],
    ecc_A := [4], ecc_B := [5], ecc_P := [0xFF, 0x01], ecc_N := [0x7F], ecc_H := [1] }

/-- A concrete PRIVATE key whose cofactor `H` has its high bit set after
stripping, the case separating the claimed from the implemented cofactor
encoding. -/
def c4key : Key :=
  { type := KeyType.PRIVATE, ecc_D := [1], ecc_GX := [2], ecc_GY := [3],
    ecc_A := [4], ecc_B := [5], ecc_P := [1], ecc_N := [1], ecc_H := [0xFF] }

/-- A concrete PRIVATE key with a stripped-then-benign cofactor. -/
def c4wkey : Key :=
  { type := KeyType.PRIVATE, ecc_D := [6], ecc_GX := [2], ecc_GY := [3],
    ecc_A := [0xAA], ecc_B := [0xBB], ecc_P := [1], ecc_N := [1], ecc_H := [0, 2] }

/-- A concrete PUBLIC key. -/
def c9pub : Key :=
  { type := KeyType.PUBLIC, ecc_D := [1], ecc_GX := [2], ecc_GY := [3],
    ecc_A := [4], ecc_B := [5], ecc_P := [6], ecc_N := [7], ecc_H := [1] }

/-- A concrete PRIVATE key with nonempty components. -/
def c9priv : Key :=
  { type := KeyType.PRIVATE, ecc_D := [1], ecc_GX := [2], ecc_GY := [3],
    ecc_A := [4], ecc_B := [5], ecc_P := [6], ecc_N := [7], ecc_H := [1] }

/-- A tree of the arity the decoder navigates, but with wrong tags: the
version and algorithm-identifier leaves carry tag `05` where the schema
fixes INTEGER (`02`) and OBJECT IDENTIFIER (`06`).  Structurally it
mismatches the PKCS#8 schema, yet every fixed-position child the decoder
reads exists. -/
def c10tree : ASN1 :=
  ASN1.cons 0x30 [
    ASN1.prim 0x05 [0x00],
    ASN1.cons 0x30 [
      ASN1.prim 0x05 [0x2A],
      ASN1.cons 0x30 [
        ASN1.prim 0x02 [1],
        ASN1.cons 0x30 [ASN1.prim 0x06 oid_primeField, ASN1.prim 0x02 [1]],
        ASN1.cons 0x30 [ASN1.prim 0x04 [4], ASN1.prim 0x04 [5]],
        ASN1.prim 0x04 [0x04, 2, 3],
        ASN1.prim 0x02 [1]]],
    ASN1.prim 0x04 (serialize (ASN1.cons 0x30 [ASN1.prim 0x02 [1], ASN1.prim 0x04 [7]]))]

/-- The key the decoder extracts from `c10tree`. -/
def c10key : Key :=
  { type := KeyType.PRIVATE, ecc_D := [7], ecc_GX := [2], ecc_GY := [3],
    ecc_A := [4], ecc_B := [5], ecc_P := [1], ecc_N := [1], ecc_H := [1] }

/-! Lemmas: the byte parser reads back what `serialize` writes. -/

theorem natBE_ne_nil {n : Nat} (h : n ≠ 0) : natBE n ≠ [] := by
  rw [natBE]
  simp [h]

theorem natBE_foldl (n : Nat) :
    ∀ a : Nat, (natBE n).foldl (fun acc b => acc * 256 + b) a
      = a * 256 ^ (natBE n).length + n := by
  induction n using Nat.strong_induction_on with
  | _ n ih =>
    intro a
    by_cases h : n = 0
    · subst h
      rw [natBE]
      simp
    · rw [natBE]
      simp only [h, dite_false]
      rw [List.foldl_append]
      rw [ih (n / 256) (Nat.div_lt_self (Nat.pos_of_ne_zero h) (by omega)) a]
      have hd : 256 * (n / 256) + n % 256 = n := Nat.div_add_mod n 256
      simp only [List.foldl_cons, List.foldl_nil, List.length_append,
        List.length_cons, List.length_nil]
      calc (a * 256 ^ (natBE (n / 256)).length + n / 256) * 256 + n % 256
          = a * (256 ^ (natBE (n / 256)).length * 256)
              + (256 * (n / 256) + n % 256) := by ring
        _ = a * 256 ^ ((natBE (n / 256)).length + (0 + 1)) + n := by
              rw [hd, pow_succ]

theorem bytesToNat_natBE (n : Nat) : bytesToNat (natBE n) = n := by
  unfold bytesToNat
  rw [natBE_foldl n 0]
  simp

theorem parseLen_derLen (n : Nat) (rest : List Nat) :
    parseLen (derLen n ++ rest) = some (n, rest) := by
  by_cases h : n < 128
  · simp [derLen, h, parseLen]
  · have hn0 : n ≠ 0 := by omega
    have hL : 0 < (natBE n).length := List.length_pos.mpr (natBE_ne_nil hn0)
    have h1 : ¬ (128 + (natBE n).length < 128) := by omega
    have h2 : ¬ (128 + (natBE n).length = 128) := by omega
    have hk : 128 + (natBE n).length - 128 = (natBE n).length := by omega
    have h3 : ¬ ((natBE n ++ rest).length < (natBE n).length) := by
      simp [List.length_append]
    simp [derLen, h, parseLen, h1, h2, hk, h3, List.take_left, List.drop_left,
      bytesToNat_natBE]

theorem derLen_length_pos (n : Nat) : 0 < (derLen n).length := by
  unfold derLen
  split <;> simp

theorem serialize_prim (tg : Nat) (v : List Nat) :
    serialize (ASN1.prim tg v) = tg :: (derLen v.length ++ v) := by
  rw [serialize]

theorem serialize_cons (tg : Nat) (cs : List ASN1) :
    serialize (ASN1.cons tg cs)
      = tg :: (derLen (serializeList cs).length ++ serializeList cs) := by
  rw [serialize]

theorem two_le_serialize_length (t : ASN1) : 2 ≤ (serialize t).length := by
  cases t with
  | prim tg v =>
    rw [serialize_prim]
    have := derLen_length_pos v.length
    simp [List.length_append]
    omega
  | cons tg cs =>
    rw [serialize_cons]
    have := derLen_length_pos (serializeList cs).length
    simp [List.length_append]
    omega

theorem serialize_ne_nil (t : ASN1) : serialize t ≠ [] := by
  have h := two_le_serialize_length t
  intro hh
  rw [hh] at h
  simp at h

theorem asize_pos (t : ASN1) : 0 < asize t := by
  cases t with
  | prim tg v => rw [asize]; omega
  | cons tg cs => rw [asize]; omega

theorem parseManyFuel_nil (f : Nat) : parseManyFuel f [] = some [] := by
  cases f <;> rw [parseManyFuel]

theorem parseManyFuel_serializeList :
    ∀ (N : Nat) (cs : List ASN1), asizeL cs ≤ N → wfbL cs = true →
      ∀ f : Nat, (serializeList cs).length + 1 ≤ f →
        parseManyFuel f (serializeList cs) = some cs := by
  intro N
  induction N with
  | zero =>
    intro cs hsz _ f _
    cases cs with
    | nil =>
      rw [serializeList]
      exact parseManyFuel_nil f
    | cons c cs2 =>
      exfalso
      rw [asizeL] at hsz
      have := asize_pos c
      omega
  | succ N ih =>
    intro cs hsz hwf f hf
    cases cs with
    | nil =>
      rw [serializeList]
      exact parseManyFuel_nil f
    | cons c cs2 =>
      rw [asizeL] at hsz
      simp only [wfbL, Bool.and_eq_true] at hwf
      obtain ⟨hwfc, hwfcs⟩ := hwf
      rw [serializeList] at hf ⊢
      have hslen := two_le_serialize_length c
      have hlen : (serialize c ++ serializeList cs2).length
          = (serialize c).length + (serializeList cs2).length := List.length_append _ _
      obtain ⟨f2, rfl⟩ : ∃ f2, f = f2 + 1 := ⟨f - 1, by rw [hlen] at hf; omega⟩
      have hf2a : (serializeList cs2).length + 1 ≤ f2 := by rw [hlen] at hf; omega
      cases c with
      | prim tg v =>
        have htag : ¬ (tg / 32 % 2 = 1) := by
          simp only [wfb, beq_iff_eq] at hwfc
          omega
        rw [serialize_prim, List.cons_append, List.append_assoc, parseManyFuel,
          parseLen_derLen]
        have hle : v.length ≤ (v ++ serializeList cs2).length := by simp
        simp only [hle, if_true, htag, if_false]
        rw [List.take_left, List.drop_left]
        rw [ih cs2 (by have := asize_pos (ASN1.prim tg v); omega) hwfcs f2 hf2a]
      | cons tg cs3 =>
        simp only [wfb, Bool.and_eq_true, beq_iff_eq] at hwfc
        obtain ⟨htag, hwf3⟩ := hwfc
        rw [serialize_cons, List.cons_append, List.append_assoc, parseManyFuel,
          parseLen_derLen]
        have hle : (serializeList cs3).length
            ≤ (serializeList cs3 ++ serializeList cs2).length := by simp
        simp only [hle, if_true, htag]
        rw [List.take_left, List.drop_left]
        have hsz3 : asizeL cs3 ≤ N := by
          rw [asize] at hsz
          have := asize_pos (ASN1.cons tg cs3)
          omega
        have hf2b : (serializeList cs3).length + 1 ≤ f2 := by
          have hd := derLen_length_pos (serializeList cs3).length
          rw [serialize_cons] at hf
          simp only [List.length_append, List.length_cons] at hf
          omega
        rw [ih cs3 hsz3 hwf3 f2 hf2b]
        rw [ih cs2 (by rw [asize] at hsz; omega) hwfcs f2 hf2a]
        simp

theorem parse_serialize (t : ASN1) (hwf : wfb t = true) :
    parse (serialize t) = some t := by
  unfold parse
  have hs : serializeList [t] = serialize t := by
    rw [serializeList, serializeList, List.append_nil]
  have h := parseManyFuel_serializeList (asizeL [t]) [t] le_rfl
    (by simp [wfbL, hwf]) ((serialize t).length + 1) (by rw [hs])
  rw [hs] at h
  rw [h]

theorem wfb_ecPrivateKeyTree (k : Key) : wfb (ecPrivateKeyTree k) = true := by
  simp [ecPrivateKeyTree, wfb, wfbL]

theorem wfb_privateKeyInfoTree (k : Key) : wfb (privateKeyInfoTree k) = true := by
  simp [privateKeyInfoTree, wfb, wfbL]

theorem decode_serialize_tree (k : Key) (gx gy : List Nat)
    (hpt : decodeUncompressedECPoint (encodeUncompressedECPoint k.ecc_GX k.ecc_GY)
      = some (gx, gy)) :
    decodeKeyFromPKCS8Format (serialize (privateKeyInfoTree k)) =
      some { type := KeyType.PRIVATE, ecc_D := k.ecc_D, ecc_GX := gx, ecc_GY := gy,
             ecc_A := k.ecc_A, ecc_B := k.ecc_B, ecc_P := signPad k.ecc_P,
             ecc_N := signPad k.ecc_N, ecc_H := stripLeadingZeros k.ecc_H } := by
  have h1 : parse (serialize (privateKeyInfoTree k)) = some (privateKeyInfoTree k) :=
    parse_serialize _ (wfb_privateKeyInfoTree k)
  have h2 : parse (serialize (ASN1.cons 0x30 [ASN1.prim 0x02 [0x01], ASN1.prim 0x04 k.ecc_D]))
      = some (ASN1.cons 0x30 [ASN1.prim 0x02 [0x01], ASN1.prim 0x04 k.ecc_D]) :=
    parse_serialize _ (by simp [wfb, wfbL])
  simp only [decodeKeyFromPKCS8Format, h1]
  simp [privateKeyInfoTree, ecPrivateKeyTree, ASN1.get, ASN1.value]
  simp only [h2]
  simp [ASN1.get, ASN1.value]
  simp only [hpt]

theorem stripLeadingZeros_idem (v : List Nat) :
    stripLeadingZeros (stripLeadingZeros v) = stripLeadingZeros v := by
  induction v with
  | nil => rfl
  | cons b r ih =>
    rw [stripLeadingZeros]
    by_cases h : b = 0
    · simp [h, ih]
    · simp [h, stripLeadingZeros]

theorem signPad_idem (v : List Nat) : signPad (signPad v) = signPad v := by
  cases v with
  | nil => rfl
  | cons b r =>
    rw [signPad]
    by_cases h : 128 ≤ b
    · simp [h, signPad]
    · simp [h, signPad]

theorem signPad_ne_nil {v : List Nat} (h : v ≠ []) : signPad v ≠ [] := by
  cases v with
  | nil => exact absurd rfl h
  | cons b r =>
    rw [signPad]
    split <;> simp

theorem encode_ok (k : Key) (ht : k.type = KeyType.PRIVATE) (hp : k.ecc_P ≠ [])
    (hn : k.ecc_N ≠ []) :
    encodeKeyUsingPKCS8Format k = .ok (serialize (privateKeyInfoTree k)) := by
  obtain ⟨p0, pr, hP⟩ := List.exists_cons_of_ne_nil hp
  obtain ⟨n0, nr, hN⟩ := List.exists_cons_of_ne_nil hn
  simp [encodeKeyUsingPKCS8Format, ht, hP, hN]

theorem encode_ok_inv {k : Key} {bs : List Nat}
    (h : encodeKeyUsingPKCS8Format k = .ok bs) :
    k.type = KeyType.PRIVATE ∧ k.ecc_P ≠ [] ∧ k.ecc_N ≠ [] ∧
      bs = serialize (privateKeyInfoTree k) := by
  by_cases ht : k.type = KeyType.PRIVATE
  · refine ⟨ht, ?_⟩
    simp only [encodeKeyUsingPKCS8Format, ht, if_true] at h
    cases hP : k.ecc_P with
    | nil => rw [hP] at h; simp at h
    | cons p0 pr =>
      cases hN : k.ecc_N with
      | nil => rw [hP, hN] at h; simp at h
      | cons n0 nr =>
        rw [hP, hN] at h
        simp only [Except.ok.injEq] at h
        simp [hP, hN, h]
  · simp [encodeKeyUsingPKCS8Format, ht] at h

/-- Splitting the concatenated coordinates after an even-total point
encode: the decoder recovers coordinate sequences whose concatenation is
the original concatenation. -/
theorem point_split (x y : List Nat)
    (he : (x.length + y.length) % 2 = 0) :
    decodeUncompressedECPoint (encodeUncompressedECPoint x y)
      = some ((x ++ y).take ((x.length + y.length) / 2),
              (x ++ y).drop ((x.length + y.length) / 2)) := by
  have hu : encodeUncompressedECPoint x y = 4 :: (x ++ y) := by
    simp [encodeUncompressedECPoint]
  have hxy : (x ++ y).length = x.length + y.length := List.length_append x y
  rw [hu]
  simp only [decodeUncompressedECPoint, List.length_cons, hxy]
  have h0 : ¬ (x.length + y.length + 1 = 0) := by omega
  have hsub : x.length + y.length + 1 - 1 = x.length + y.length := by omega
  simp only [h0, if_false, hsub, he, if_true]
  have hd2 : (4 :: (x ++ y)).drop (1 + (x.length + y.length) / 2)
      = (x ++ y).drop ((x.length + y.length) / 2) := by
    rw [Nat.add_comm 1 ((x.length + y.length) / 2)]
    rfl
  have hd3 : ((x ++ y).drop ((x.length + y.length) / 2)).take ((x.length + y.length) / 2)
      = (x ++ y).drop ((x.length + y.length) / 2) := by
    apply List.take_of_length_le
    simp only [List.length_drop, hxy]
    omega
  rw [hd2, hd3]
  rfl

/-- Equal-width coordinates decode back exactly after a point encode. -/
theorem point_roundtrip (x y : List Nat) (h : x.length = y.length) :
    decodeUncompressedECPoint (encodeUncompressedECPoint x y) = some (x, y) := by
  have he : (x.length + y.length) % 2 = 0 := by omega
  rw [point_split x y he]
  have hm : (x.length + y.length) / 2 = x.length := by omega
  rw [hm, List.take_left, List.drop_left]

/-- The tree built from the key the decoder returns coincides with the
tree built from the original key, whenever the recovered coordinates
concatenate to the original concatenation. -/
theorem tree_decoded (k : Key) (gx gy : List Nat)
    (hcat : gx ++ gy = k.ecc_GX ++ k.ecc_GY) :
    privateKeyInfoTree
      { type := KeyType.PRIVATE, ecc_D := k.ecc_D, ecc_GX := gx,
        ecc_GY := gy, ecc_A := k.ecc_A, ecc_B := k.ecc_B, ecc_P := signPad k.ecc_P,
        ecc_N := signPad k.ecc_N, ecc_H := stripLeadingZeros k.ecc_H }
      = privateKeyInfoTree k := by
  simp only [privateKeyInfoTree, ecPrivateKeyTree, encodeUncompressedECPoint,
    signPad_idem, stripLeadingZeros_idem]
  simp [List.append_assoc, hcat]

/-- C5: for every pair of equal-width byte sequences x and y, decoding the
uncompressed point encoding of (x, y) returns the pair (x, y) unchanged. -/
theorem C5_point_decode_encode (x y : List Nat) (h : x.length = y.length) :
    decodeUncompressedECPoint (encodeUncompressedECPoint x y) = some (x, y) :=
  point_roundtrip x y h

/-- C5 witness: the spec's concrete coordinates x = 12 34, y = 56 78. -/
theorem C5_witness :
    ([0x12, 0x34] : List Nat).length = ([0x56, 0x78] : List Nat).length ∧
    decodeUncompressedECPoint (encodeUncompressedECPoint [0x12, 0x34] [0x56, 0x78])
      = some ([0x12, 0x34], [0x56, 0x78]) :=
  ⟨by decide, C5_point_decode_encode [0x12, 0x34] [0x56, 0x78] (by decide)⟩

/-- C6: the point encoder emits exactly one marker byte 04 followed by
the raw bytes of x then y, with no length or padding; in particular
x = 12 34, y = 56 78 encodes to the five bytes 04 12 34 56 78. -/
theorem C6_point_encode_layout :
    (∀ x y : List Nat, encodeUncompressedECPoint x y = 0x04 :: (x ++ y)) ∧
    encodeUncompressedECPoint [0x12, 0x34] [0x56, 0x78]
      = [0x04, 0x12, 0x34, 0x56, 0x78] :=
  ⟨fun _ _ => rfl, rfl⟩

/-- C7: on any input of length 1 + 2n the point decoder returns the n
bytes at positions 1 through n and the n bytes after them, whatever the
first (marker) byte is. -/
theorem C7_point_decode_positions (u : List Nat) (n : Nat)
    (h : u.length = 1 + 2 * n) :
    decodeUncompressedECPoint u
      = some ((u.drop 1).take n, (u.drop (1 + n)).take n) := by
  simp only [decodeUncompressedECPoint, h]
  have h0 : ¬ (1 + 2 * n = 0) := by omega
  have h1 : 1 + 2 * n - 1 = 2 * n := by omega
  have h2 : 2 * n % 2 = 0 := by omega
  have h3 : 2 * n / 2 = n := by omega
  simp [h0, h1, h2, h3]

/-- C7 witness: a five-byte input whose marker byte is 9, not 04. -/
theorem C7_witness :
    ([9, 1, 2, 3, 4] : List Nat).length = 1 + 2 * 2 ∧
    decodeUncompressedECPoint [9, 1, 2, 3, 4]
      = some ((([9, 1, 2, 3, 4] : List Nat).drop 1).take 2,
              (([9, 1, 2, 3, 4] : List Nat).drop (1 + 2)).take 2) :=
  ⟨by decide, C7_point_decode_positions [9, 1, 2, 3, 4] 2 (by decide)⟩

/-- C8: stripLeadingZeros sends every all-zero sequence to the empty
sequence, sends 00 01 FF to 01 FF, and in general removes exactly the
longest run of leading zero bytes (it agrees with dropWhile of zeroness). -/
theorem C8_stripLeadingZeros :
    (∀ n : Nat, stripLeadingZeros (List.replicate n 0) = []) ∧
    stripLeadingZeros [0x00, 0x01, 0xFF] = [0x01, 0xFF] ∧
    (∀ v : List Nat, stripLeadingZeros v = v.dropWhile fun b => b == 0) := by
  refine ⟨?_, by decide, ?_⟩
  · intro n
    induction n with
    | zero => rfl
    | succ m ih => simp [List.replicate, stripLeadingZeros, ih]
  · intro v
    induction v with
    | nil => rfl
    | cons b r ih =>
      rw [stripLeadingZeros, List.dropWhile]
      by_cases h : b = 0
      · simp [h, ih]
      · have hb : (b == 0) = false := by simp [h]
        simp [h, hb]

/-- C9: the encoder fails with the precondition violation exactly on keys
whose type is not PRIVATE; a PRIVATE key never triggers that failure. -/
theorem C9_encode_precondition (k : Key) :
    encodeKeyUsingPKCS8Format k = .error .precondition
      ↔ k.type ≠ KeyType.PRIVATE := by
  by_cases ht : k.type = KeyType.PRIVATE
  · simp only [encodeKeyUsingPKCS8Format, ht, if_true]
    constructor
    · intro h
      cases hP : k.ecc_P with
      | nil => rw [hP] at h; simp at h
      | cons p0 pr =>
        cases hN : k.ecc_N with
        | nil => rw [hP, hN] at h; simp at h
        | cons n0 nr => rw [hP, hN] at h; simp at h
    · intro h
      exact absurd rfl h
  · simp [encodeKeyUsingPKCS8Format, ht]

/-- C9 witness: a concrete PUBLIC key hits the precondition failure and a
concrete PRIVATE key does not. -/
theorem C9_witness :
    encodeKeyUsingPKCS8Format c9pub = .error .precondition ∧
    ¬ encodeKeyUsingPKCS8Format c9priv = .error .precondition :=
  ⟨(C9_encode_precondition c9pub).mpr (by decide),
   fun h => absurd ((C9_encode_precondition c9priv).mp h) (by decide)⟩

/-- C1 counterexample: for the key with P = FF 01 (high bit set), decode
of encode returns a key whose P is 00 FF 01, not byte-for-byte equal to
P, refuting the claim at this input. -/
theorem C1_counterexample :
    decodeOfEncode c1key
      = some
          { type := KeyType.PRIVATE, ecc_D := [1], ecc_GX := [2], ecc_GY := [3],
            ecc_A := [4], ecc_B := [5], ecc_P := [0x00, 0xFF, 0x01], ecc_N := [1],
            ecc_H := [1] } ∧
    ([0x00, 0xFF, 0x01] : List Nat) ≠ c1key.ecc_P := by
  constructor
  · decide
  · decide

/-- C1 (amended): decode of encode returns D, A, B byte-for-byte, GX and
GY byte-for-byte when they have equal width, H with leading zeros
stripped, and P and N as their DER INTEGER bodies: the raw bytes with a
00 byte prepended exactly when the first byte's high bit is set (the
decoder does not strip the sign byte the encoder adds). -/
theorem C1_roundtrip_components (k : Key) (ht : k.type = KeyType.PRIVATE)
    (hp : k.ecc_P ≠ []) (hn : k.ecc_N ≠ [])
    (hw : k.ecc_GX.length = k.ecc_GY.length) :
    decodeOfEncode k
      = some
          { type := KeyType.PRIVATE, ecc_D := k.ecc_D, ecc_GX := k.ecc_GX,
            ecc_GY := k.ecc_GY, ecc_A := k.ecc_A, ecc_B := k.ecc_B,
            ecc_P := signPad k.ecc_P, ecc_N := signPad k.ecc_N,
            ecc_H := stripLeadingZeros k.ecc_H } := by
  unfold decodeOfEncode
  rw [encode_ok k ht hp hn]
  simp only [Except.toOption, Option.some_bind]
  exact decode_serialize_tree k k.ecc_GX k.ecc_GY (point_roundtrip _ _ hw)

/-- C1 witness: a concrete PRIVATE key with equal-width coordinates and a
leading zero on H. -/
theorem C1_witness :
    c1wkey.type = KeyType.PRIVATE ∧ c1wkey.ecc_P ≠ [] ∧ c1wkey.ecc_N ≠ [] ∧
    c1wkey.ecc_GX.length = c1wkey.ecc_GY.length ∧
    decodeOfEncode c1wkey
      = some
          { type := KeyType.PRIVATE, ecc_D := c1wkey.ecc_D,
            ecc_GX := c1wkey.ecc_GX, ecc_GY := c1wkey.ecc_GY,
            ecc_A := c1wkey.ecc_A, ecc_B := c1wkey.ecc_B,
            ecc_P := signPad c1wkey.ecc_P, ecc_N := signPad c1wkey.ecc_N,
            ecc_H := stripLeadingZeros c1wkey.ecc_H } :=
  ⟨by decide, by decide, by decide, by decide,
   C1_roundtrip_components c1wkey (by decide) (by decide) (by decide) (by decide)⟩

/-- C2: re-encoding the decoded key reproduces the original encoding
byte for byte (the total coordinate length must be even, otherwise the
point split is undefined in the source). -/
theorem C2_reencode_stable (k : Key) (ht : k.type = KeyType.PRIVATE)
    (hp : k.ecc_P ≠ []) (hn : k.ecc_N ≠ [])
    (he : (k.ecc_GX.length + k.ecc_GY.length) % 2 = 0) :
    (encodeKeyUsingPKCS8Format k).toOption ≠ none ∧
    reencodeOfDecode k = (encodeKeyUsingPKCS8Format k).toOption := by
  have henc := encode_ok k ht hp hn
  have hdec := decode_serialize_tree k _ _ (point_split k.ecc_GX k.ecc_GY he)
  constructor
  · rw [henc]
    simp only [Except.toOption]
    exact Option.some_ne_none _
  · unfold reencodeOfDecode decodeOfEncode
    rw [henc]
    generalize hS : serialize (privateKeyInfoTree k) = S
    rw [hS] at hdec
    have h1 : (Except.ok S : Except EncError (List Nat)).toOption = some S := rfl
    rw [h1, Option.some_bind, hdec, Option.some_bind]
    rw [encode_ok _ rfl (signPad_ne_nil hp) (signPad_ne_nil hn)]
    rw [tree_decoded k _ _ (List.take_append_drop _ _), hS]
    exact h1

/-- C2 witness: a concrete PRIVATE key exercising both sign-padding
branches and the H stripping. -/
theorem C2_witness :
    c2wkey.type = KeyType.PRIVATE ∧ c2wkey.ecc_P ≠ [] ∧ c2wkey.ecc_N ≠ [] ∧
    (c2wkey.ecc_GX.length + c2wkey.ecc_GY.length) % 2 = 0 ∧
    ((encodeKeyUsingPKCS8Format c2wkey).toOption ≠ none ∧
     reencodeOfDecode c2wkey = (encodeKeyUsingPKCS8Format c2wkey).toOption) :=
  ⟨by decide, by decide, by decide, by decide,
   C2_reencode_stable c2wkey (by decide) (by decide) (by decide) (by decide)⟩

/-- C3: in the encoder's output, the INTEGER carrying P (child path
1.1.1.1 of the parsed output) holds 00 followed by P when P's first byte
has its high bit set, and exactly P otherwise, with the corresponding
one-byte length difference; likewise for N (child path 1.1.4). -/
theorem C3_sign_padding (k : Key) (p0 n0 : Nat) (pr nr : List Nat)
    (ht : k.type = KeyType.PRIVATE) (hP : k.ecc_P = p0 :: pr)
    (hN : k.ecc_N = n0 :: nr) :
    ((encodeKeyUsingPKCS8Format k).toOption.bind fun bs => nodeAt bs [1, 1, 1, 1])
      = some (ASN1.prim 0x02 (if 128 ≤ p0 then 0 :: k.ecc_P else k.ecc_P)) ∧
    (if 128 ≤ p0 then 0 :: k.ecc_P else k.ecc_P).length
      = k.ecc_P.length + (if 128 ≤ p0 then 1 else 0) ∧
    ((encodeKeyUsingPKCS8Format k).toOption.bind fun bs => nodeAt bs [1, 1, 4])
      = some (ASN1.prim 0x02 (if 128 ≤ n0 then 0 :: k.ecc_N else k.ecc_N)) ∧
    (if 128 ≤ n0 then 0 :: k.ecc_N else k.ecc_N).length
      = k.ecc_N.length + (if 128 ≤ n0 then 1 else 0) := by
  have hp : k.ecc_P ≠ [] := by rw [hP]; simp
  have hn : k.ecc_N ≠ [] := by rw [hN]; simp
  have henc := encode_ok k ht hp hn
  have h1 := parse_serialize _ (wfb_privateKeyInfoTree k)
  have hsp : signPad k.ecc_P = if 128 ≤ p0 then 0 :: k.ecc_P else k.ecc_P := by
    rw [hP, signPad]
  have hsn : signPad k.ecc_N = if 128 ≤ n0 then 0 :: k.ecc_N else k.ecc_N := by
    rw [hN, signPad]
  refine ⟨?_, ?_, ?_, ?_⟩
  · rw [henc]
    simp only [Except.toOption, Option.some_bind]
    unfold nodeAt
    rw [h1, ← hsp]
    simp [navigate, privateKeyInfoTree, ASN1.get]
  · by_cases h : 128 ≤ p0 <;> simp [h]
  · rw [henc]
    simp only [Except.toOption, Option.some_bind]
    unfold nodeAt
    rw [h1, ← hsn]
    simp [navigate, privateKeyInfoTree, ASN1.get]
  · by_cases h : 128 ≤ n0 <;> simp [h]

/-- C3 witness: the spec's concrete scenario P = FF 01 together with a
high-bit-free N = 7F. -/
theorem C3_witness :
    c3wkey.type = KeyType.PRIVATE ∧ c3wkey.ecc_P = 0xFF :: [0x01] ∧
    c3wkey.ecc_N = 0x7F :: [] ∧
    (((encodeKeyUsingPKCS8Format c3wkey).toOption.bind fun bs => nodeAt bs [1, 1, 1, 1])
        = some (ASN1.prim 0x02
            (if 128 ≤ 0xFF then 0 :: c3wkey.ecc_P else c3wkey.ecc_P)) ∧
      (if 128 ≤ 0xFF then 0 :: c3wkey.ecc_P else c3wkey.ecc_P).length
        = c3wkey.ecc_P.length + (if 128 ≤ 0xFF then 1 else 0) ∧
      ((encodeKeyUsingPKCS8Format c3wkey).toOption.bind fun bs => nodeAt bs [1, 1, 4])
        = some (ASN1.prim 0x02
            (if 128 ≤ 0x7F then 0 :: c3wkey.ecc_N else c3wkey.ecc_N)) ∧
      (if 128 ≤ 0x7F then 0 :: c3wkey.ecc_N else c3wkey.ecc_N).length
        = c3wkey.ecc_N.length + (if 128 ≤ 0x7F then 1 else 0)) :=
  ⟨by decide, by decide, by decide,
   C3_sign_padding c3wkey 0xFF 0x7F [0x01] [] (by decide) (by decide) (by decide)⟩

/-- C4 counterexample: for the key with H = FF, the encoded cofactor
INTEGER's value bytes are FF, not the sign-padded 00 FF the claim
prescribes, refuting the claim at this input. -/
theorem C4_counterexample :
    ((encodeKeyUsingPKCS8Format c4key).toOption.bind fun bs => nodeValueAt bs [1, 1, 0])
      = some [0xFF] ∧
    ((encodeKeyUsingPKCS8Format c4key).toOption.bind fun bs => nodeValueAt bs [1, 1, 0])
      ≠ some (0 :: stripLeadingZeros c4key.ecc_H) := by
  constructor
  · decide
  · decide

/-- C4 (amended): the cofactor H is encoded as an INTEGER whose value
bytes are exactly H with leading zero bytes stripped — no sign padding is
applied to H — while A and B are carried as OCTET STRINGs holding their
raw bytes. -/
theorem C4_cofactor_and_coefficients (k : Key) (ht : k.type = KeyType.PRIVATE)
    (hp : k.ecc_P ≠ []) (hn : k.ecc_N ≠ []) :
    ((encodeKeyUsingPKCS8Format k).toOption.bind fun bs => nodeAt bs [1, 1, 0])
      = some (ASN1.prim 0x02 (stripLeadingZeros k.ecc_H)) ∧
    ((encodeKeyUsingPKCS8Format k).toOption.bind fun bs => nodeAt bs [1, 1, 2, 0])
      = some (ASN1.prim 0x04 k.ecc_A) ∧
    ((encodeKeyUsingPKCS8Format k).toOption.bind fun bs => nodeAt bs [1, 1, 2, 1])
      = some (ASN1.prim 0x04 k.ecc_B) := by
  have henc := encode_ok k ht hp hn
  have h1 := parse_serialize _ (wfb_privateKeyInfoTree k)
  refine ⟨?_, ?_, ?_⟩ <;>
    · rw [henc]
      simp only [Except.toOption, Option.some_bind]
      unfold nodeAt
      rw [h1]
      simp [navigate, privateKeyInfoTree, ASN1.get]

/-- C4 witness: a concrete key with a leading zero on H and high-bit
coefficient bytes. -/
theorem C4_witness :
    c4wkey.type = KeyType.PRIVATE ∧ c4wkey.ecc_P ≠ [] ∧ c4wkey.ecc_N ≠ [] ∧
    (((encodeKeyUsingPKCS8Format c4wkey).toOption.bind fun bs => nodeAt bs [1, 1, 0])
        = some (ASN1.prim 0x02 (stripLeadingZeros c4wkey.ecc_H)) ∧
      ((encodeKeyUsingPKCS8Format c4wkey).toOption.bind fun bs => nodeAt bs [1, 1, 2, 0])
        = some (ASN1.prim 0x04 c4wkey.ecc_A) ∧
      ((encodeKeyUsingPKCS8Format c4wkey).toOption.bind fun bs => nodeAt bs [1, 1, 2, 1])
        = some (ASN1.prim 0x04 c4wkey.ecc_B)) :=
  ⟨by decide, by decide, by decide,
   C4_cofactor_and_coefficients c4wkey (by decide) (by decide) (by decide)⟩

/-- C10 counterexample: a byte sequence whose parsed tree mismatches the
schema (its version node carries tag 05 where the schema fixes
INTEGER, tag 02) is still decoded into a Key instead of failing. -/
theorem C10_counterexample :
    decodeKeyFromPKCS8Format (serialize c10tree) = some c10key ∧
    nodeTagAt (serialize c10tree) [0] = some 5 ∧ (5 : Nat) ≠ 2 := by
  refine ⟨by decide, by decide, by decide⟩

/-- C10 (amended): the decoder fails (no result) exactly when the input
does not parse as a TLV tree or one of its fixed-position navigation
steps fails — a missing child, an unparseable inner private-key block, or
an undefined point split; it never inspects tags, so wrong-tag inputs of
the right shape are decoded rather than rejected, and no dedicated
structure error distinct from the generic failure exists. -/
theorem C10_decode_failure_shape (bs : List Nat) :
    (decodeKeyFromPKCS8Format bs).isSome = decodeShapeOK bs := by
  unfold decodeKeyFromPKCS8Format decodeShapeOK
  cases parse bs with
  | none => rfl
  | some p8 =>
  dsimp only
  cases p8.get 2 with
  | none => rfl
  | some pkb =>
  dsimp only
  cases parse pkb.value with
  | none => rfl
  | some innerKey =>
  dsimp only
  cases innerKey.get 1 with
  | none => rfl
  | some dNode =>
  dsimp only
  cases p8.get 1 with
  | none => rfl
  | some alg =>
  dsimp only
  cases alg.get 1 with
  | none => rfl
  | some dp =>
  dsimp only
  cases dp.get 0 with
  | none => rfl
  | some cof =>
  dsimp only
  cases dp.get 1 with
  | none => rfl
  | some fieldSeq =>
  dsimp only
  cases fieldSeq.get 1 with
  | none => rfl
  | some orderNode =>
  dsimp only
  cases dp.get 2 with
  | none => rfl
  | some coeffSeq =>
  dsimp only
  cases coeffSeq.get 0 with
  | none => rfl
  | some aNode =>
  dsimp only
  cases coeffSeq.get 1 with
  | none => rfl
  | some bNode =>
  dsimp only
  cases dp.get 3 with
  | none => rfl
  | some g =>
  dsimp only
  cases decodeUncompressedECPoint g.value with
  | none => rfl
  | some coords =>
  dsimp only
  cases dp.get 4 with
  | none => rfl
  | some groupOrder => rfl

end PKCS8Spec
